import Mathlib

/-!
Shallow embedding of `descriptastorus/MolFileIndex.py` (and the interface of
the missing `raw.py` store, modelled from the spec).

Conventions of the embedding:
* A file's byte content is a `List Char` (the sources only ever index ASCII
  text, where Python's text and binary reads agree byte-for-byte).
* Python generators/loops are written as fuel-based recursions; every call
  site supplies fuel that provably exceeds the number of iterations the
  Python loop performs, so the embedded function agrees with the source.
* A Python exception is an `Except PyErr` result.  Accessing an attribute
  that was never assigned raises `AttributeError`; that is modelled by an
  `Option` field holding `none`.
-/

namespace MolFile

abbrev Bytes := List Char

/-- Python exception kinds raised by the code under study (messages elided). -/
inductive PyErr
  | attributeError
  | valueError
  | indexError
  | nameError
deriving DecidableEq, Repr

/-- Result of `MolFileIndex._get`: a raw string when no separator is
configured, a list of fields when the buffer was split on the separator. -/
inductive GetResult
  | raw (s : Bytes)
  | fields (l : List Bytes)
deriving DecidableEq, Repr

/-- A smiles/name column selector: Python accepts an integer index or a
header-name string. -/
inductive ColSel
  | idx (i : Int)
  | name (s : Bytes)

/-! ### The byte-offset scanner `index(fname, word)`

Source (`MolFileIndex.py`, lines 135-154):

    def index(fname, word):
        fsize = os.path.getsize(fname)
        bsize = 2**16
        with open(fname, 'rb') as f:
            buffer = None
            overlap = len(word) - 1
            while True:
                if (f.tell() >= overlap and f.tell() < fsize):
                    f.seek(f.tell() - overlap)
                buffer = f.read(bsize)
                if buffer:
                    pos = buffer.find(word)
                    while pos != -1:
                        yield f.tell() - (len(buffer) - pos)
                        pos = buffer.find(word, pos+1)
                else:
                    break
-/

/-- The terminator `T` occurs in `buf` starting at byte position `q`. -/
def matchAt (buf T : Bytes) (q : Nat) : Bool :=
  (buf.drop q).take T.length == T

/-- Python's `buffer.find(word, k)`: the smallest position `q ≥ k` at which
`word` occurs in `buffer`, or `none` (Python: `-1`).  Fuel-based recursion;
`fuel ≥ buffer.length + 1 - k` makes it total over the search space. -/
def findFrom (buf T : Bytes) (fuel k : Nat) : Option Nat :=
  match fuel with
  | 0 => none
  | fuel + 1 =>
    if buf.length < k + T.length then none
    else if matchAt buf T k then some k
    else findFrom buf T fuel (k + 1)

/-- The inner `while pos != -1` loop of the scanner: all match positions of
`T` in `buf` from `k` on, advancing by one after each match (so overlapping
matches are reported).  Called with fuel `buf.length + 1`, which exceeds the
possible number of matches. -/
def findAll (buf T : Bytes) (fuel k : Nat) : List Nat :=
  match fuel with
  | 0 => []
  | fuel + 1 =>
    match findFrom buf T (buf.length + 1) k with
    | none => []
    | some q => q :: findAll buf T fuel (q + 1)

/-- One `while True` pass of the scanner from file position `p`:
seek back by `overlap` when `overlap ≤ tell < fsize`, read a block of
`bsize` bytes, report each in-block match `q` at absolute position
`tell - (len(buffer) - q)`, and continue after the block; stop on an
empty read.  Fuel bounds the number of loop iterations. -/
def scanFrom (F T : Bytes) (bsize : Nat) : Nat → Nat → List Nat
  | 0, _ => []
  | fuel + 1, p =>
    let p' := if T.length - 1 ≤ p ∧ p < F.length then p - (T.length - 1) else p
    let buffer := (F.drop p').take bsize
    if buffer = [] then []
    else
      ((findAll buffer T (buffer.length + 1) 0).map
          (fun q => p' + buffer.length - (buffer.length - q)))
        ++ scanFrom F T bsize fuel (p' + buffer.length)

/-- The scanner with an explicit block size (the source fixes `bsize = 2^16`;
the block-size parameter is kept so the block-boundary property can be
stated).  The fuel `F.length + 2` exceeds the number of reads the Python
loop performs whenever the loop terminates. -/
def indexScan (F T : Bytes) (bsize : Nat) : List Nat :=
  scanFrom F T bsize (F.length + 2) 0

/-- `index(fname, word)` with the source's block size `2^16`. -/
def index (F T : Bytes) : List Nat :=
  indexScan F T 65536

/-- All (possibly overlapping) occurrence positions of `T` in `F`, as a
filtered position range: the matches of `T` over the entire file held in a
single buffer. -/
def occList (F T : Bytes) : List Nat :=
  (List.range' 0 (F.length + 1 - T.length)).filter (matchAt F T)

/-- Greedy non-overlapping occurrences of `T` in `F` (the claim's notion:
after a match at `q`, scanning continues at `q + len(T)`).  This is not code
of the repository; it is the comparison target for the scanner's contract. -/
def nonOverlapAux (F T : Bytes) : Nat → Nat → List Nat
  | 0, _ => []
  | fuel + 1, k =>
    match findFrom F T (F.length + 1) k with
    | none => []
    | some q => q :: nonOverlapAux F T fuel (q + T.length)

/-- Greedy non-overlapping occurrence positions of `T` in `F`. -/
def nonOverlapOccs (F T : Bytes) : List Nat :=
  nonOverlapAux F T (F.length + 1) 0

/-- The newline terminator used by `MakeSmilesIndex`. -/
def nl : Bytes := ['\n']

/-- The SDF record terminator `b"$$$$\n"` used by `MakeSDFIndex`. -/
def sdfTerminator : Bytes := "$$$$\n".data

/-! ### The raw store (modelled from the spec)

`raw.py` is not under `src/`.  Modelled from the spec: `MakeStore(cols, N,
dir)` creates a zero-filled fixed-width store of `N` rows, `putRow(i, [v])`
overwrites row `i`, and `get(i)` returns the stored row; reading an
unwritten row yields the zero-initialized default.  Only the single
`("index", dtype)` offset column is needed here, so a store's contents are a
function from row number to the stored value (the builders below only ever
write rows `0..L ≤ N`, so row bounds never bind). -/

/-- Modelled from the spec: `RawStore.putRow` for a single-column store. -/
def putRow (db : Nat → Nat) (i v : Nat) : Nat → Nat :=
  fun j => if j = i then v else db j

/-- Modelled from the spec: a zero-filled store (`MakeStore` backing). -/
def zeroStore : Nat → Nat := fun _ => 0

/-- A concrete store holding the values of a list (zero beyond the end);
used to instantiate `MolFileIndex` on hand-written record indices. -/
def offsOf (l : List Nat) : Nat → Nat :=
  fun j => l.getD j 0

/-- The loop `for i, pos in enumerate(index(filename, b"\n")):
db.putRow(i+1, [pos+1])` of `MakeSmilesIndex`. -/
def writeOffsets : (Nat → Nat) → Nat → List Nat → (Nat → Nat)
  | db, _, [] => db
  | db, i, pos :: ps => writeOffsets (putRow db (i + 1) (pos + 1)) (i + 1) ps

/-- The dtype-width selection shared by both builders (bytes of the numpy
unsigned integer type): `uint8` if `N < 2^8`, `uint16` if `N < 2^16`,
`uint32` if `N < 2^32`, else `uint64`. -/
def dtypeFor (N : Nat) : Nat :=
  if N < 2 ^ 8 then 1
  else if N < 2 ^ 16 then 2
  else if N < 2 ^ 32 then 4
  else 8

/-- `simplecount(filename)`: the number of lines Python's text-mode line
iteration yields — one line per newline byte, plus a final unterminated
line when the file is nonempty and does not end with a newline. -/
def simplecount (F : Bytes) : Nat :=
  F.count '\n' +
    (match F.getLast? with
     | none => 0
     | some c => if c = '\n' then 0 else 1)

/-! ### `MolFileIndex` -/

/-- `f.read(count)` after `f.seek(start)`: Python reads to EOF when the
count is negative, else exactly `count` bytes (fewer at EOF). -/
def pyRead (file : Bytes) (start : Nat) (count : Int) : Bytes :=
  if count < 0 then file.drop start
  else (file.drop start).take count.toNat

/-- Python's `buf.split(sep)` for a nonempty separator: split at each
left-to-right non-overlapping occurrence of `sep`. -/
def pySplitAux (sep : Bytes) : Nat → Bytes → List Bytes
  | 0, s => [s]
  | fuel + 1, s =>
    match findFrom s sep (s.length + 1) 0 with
    | none => [s]
    | some q => s.take q :: pySplitAux sep fuel (s.drop (q + sep.length))

/-- Python's `buf.split(sep)` (callers guarantee `sep ≠ []`). -/
def pySplit (s sep : Bytes) : List Bytes :=
  pySplitAux sep (s.length + 1) s

/-- Python's `str.strip()`: remove leading and trailing whitespace. -/
def pyStrip (s : Bytes) : Bytes :=
  ((s.dropWhile Char.isWhitespace).reverse.dropWhile Char.isWhitespace).reverse

/-- `SDFNameGetter(buffer)`: `buffer.split("\n")[0].strip()`. -/
def SDFNameGetter (buffer : Bytes) : Bytes :=
  pyStrip ((pySplit buffer ['\n']).getD 0 [])

/-- The state of a constructed `MolFileIndex` object.  `Option` fields model
attributes that `__init__` assigns only conditionally (`smilesColIdx`,
`nameidx`) or never (`nameGetterAttr`, i.e. `self._nameGetter`, which no
code ever assigns — `__init__` stores the constructor argument in
`self.nameFxn` instead). -/
structure MolFileIndex where
  file : Bytes
  offsets : Nat → Nat
  dbN : Nat
  hasHeader : Bool
  sep : Option Bytes
  N : Int
  colnames : GetResult
  smilesColIdx : Option Int
  nameidx : Option Int
  nameFxn : Option (Bytes → Bytes)
  nameGetterAttr : Option (Bytes → Bytes)

instance : Inhabited MolFileIndex :=
  ⟨⟨[], zeroStore, 0, false, none, 0, .raw [], none, none, none, none⟩⟩

/-- `MolFileIndex._get(idx)` as a function of the fields it reads:
resolve `None` to row 0, add the header shift, seek to `db.get(idx)[0]`,
read `db.get(idx+1)[0] - start - 1` bytes, and split on `sep` when `sep`
is truthy. -/
def mget (file : Bytes) (offsets : Nat → Nat) (hasHeader : Bool)
    (sep : Option Bytes) (idx? : Option Nat) : GetResult :=
  let idx : Nat :=
    match idx? with
    | none => 0
    | some j => if hasHeader then j + 1 else j
  let start := offsets idx
  let e := offsets (idx + 1)
  let buf := pyRead file start ((e : Int) - (start : Int) - 1)
  match sep with
  | none => .raw buf
  | some s => if s = [] then .raw buf else .fields (pySplit buf s)

/-- `MolFileIndex._get`. -/
def MolFileIndex._get (m : MolFileIndex) (idx? : Option Nat) : GetResult :=
  mget m.file m.offsets m.hasHeader m.sep idx?

/-- `MolFileIndex.get(idx)`: adds the header shift and calls `_get` (which
adds the header shift again). -/
def MolFileIndex.get (m : MolFileIndex) (idx : Nat) : GetResult :=
  MolFileIndex._get m (some (if m.hasHeader then idx + 1 else idx))

/-- `MolFileIndex.header()`. -/
def MolFileIndex.header (m : MolFileIndex) : Except PyErr GetResult :=
  if m.hasHeader then .ok (MolFileIndex._get m none) else .error .valueError

/-- `len()` of a `_get` result (a string's length or a field list's length). -/
def pyLen : GetResult → Nat
  | .raw s => s.length
  | .fields l => l.length

/-- Python sequence indexing `x[i]` with negative-index wrapping; yields
`IndexError` out of range. -/
def pyListGet (l : List α) (i : Int) : Except PyErr α :=
  let j : Int := if i < 0 then i + l.length else i
  if h : 0 ≤ j ∧ j.toNat < l.length then .ok (l.get ⟨j.toNat, h.2⟩)
  else .error .indexError

/-- `self._get(idx)[i]`: indexing a field list yields the field; indexing a
raw string yields a one-character string. -/
def pyIndexG (g : GetResult) (i : Int) : Except PyErr Bytes :=
  match g with
  | .fields l => pyListGet l i
  | .raw s => (pyListGet s i).map (fun c => [c])

/-- `MolFileIndex.getMol(idx)`.  Reading `self.smilesColIdx` when
`__init__` never assigned it raises `AttributeError`. -/
def MolFileIndex.getMol (m : MolFileIndex) (idx : Nat) : Except PyErr GetResult :=
  match m.smilesColIdx with
  | none => .error .attributeError
  | some c =>
    if c ≠ -1 then (pyIndexG (MolFileIndex._get m (some idx)) c).map .raw
    else .ok (MolFileIndex._get m (some idx))

/-- The `str` payload a raw `_get` result (the dead `_nameGetter` branch
only ever receives a raw buffer; a field list there would itself raise). -/
def rawBytesOf : GetResult → Bytes
  | .raw s => s
  | .fields _ => []

/-- `MolFileIndex.getName(idx)`.  Reading `self.nameidx` when `__init__`
never assigned it raises `AttributeError`; in the `nameidx == -1` case,
reading `self._nameGetter` (assigned nowhere) likewise raises, so the
`raise ValueError("SmilesIndex does not have a name column or a name
retriever")` line is unreachable. -/
def MolFileIndex.getName (m : MolFileIndex) (idx : Nat) : Except PyErr Bytes :=
  match m.nameidx with
  | none => .error .attributeError
  | some n =>
    if n = -1 then
      match m.nameGetterAttr with
      | none => .error .attributeError
      | some g => .ok (g (rawBytesOf (MolFileIndex._get m (some idx))))
    else pyIndexG (MolFileIndex._get m (some idx)) n

/-- The generated column name `"column_%d" % x` for headerless files. -/
def columnName (x : Nat) : Bytes :=
  ("column_" ++ toString x).data

/-- `colnames.index(s)`: substring position for a raw string (Python
`str.index`), first equal element for a list (Python `list.index`);
`none` models the `ValueError` Python raises when absent. -/
def gIndex (g : GetResult) (s : Bytes) : Option Nat :=
  match g with
  | .raw str => findFrom str s (str.length + 1) 0
  | .fields l => if l.indexOf s < l.length then some (l.indexOf s) else none

/-- `MolFileIndex.__init__` (lines 8-85).  `int()` conversion of a `.name`
selector is modelled as failing (header names are not numeric strings), so a
`.name` selector goes to `colnames.index`; a `.idx` selector is its own
`int()`.  The final `IndexError` branch for the name column formats
`self.smilesColIdx` into its message, which itself raises `AttributeError`
when that attribute was never assigned. -/
def MolFileIndex.make (file : Bytes) (offsets : Nat → Nat) (dbN : Nat)
    (hasHeader : Bool) (sep : Option Bytes)
    (smilesColumn nameColumn : ColSel) (nameFxn : Option (Bytes → Bytes)) :
    Except PyErr MolFileIndex := do
  let N : Int := if hasHeader then (dbN : Int) - 3 else (dbN : Int) - 2
  let colnames : GetResult :=
    if hasHeader then mget file offsets hasHeader sep none
    else .fields ((List.range (pyLen (mget file offsets hasHeader sep (some 0)))).map columnName)
  let row : GetResult :=
    if hasHeader then mget file offsets hasHeader sep (some 1)
    else mget file offsets hasHeader sep (some 0)
  let smilesColIdx : Option Int ←
    match smilesColumn with
    | .idx i =>
      if i = -1 then pure none
      else pure (some i)
    | .name s =>
      match gIndex colnames s with
      | none => throw .valueError
      | some k =>
        if (k : Int) = -1 then throw .indexError else pure (some (k : Int))
  match smilesColIdx with
  | some c => if (pyLen row : Int) ≤ c then throw .indexError else pure ()
  | none => pure ()
  let nameidx : Option Int ←
    match nameColumn with
    | .idx i =>
      if i = -1 then pure none
      else pure (some i)
    | .name s =>
      match gIndex colnames s with
      | none => throw .valueError
      | some k =>
        if (k : Int) = -1 then throw .indexError else pure (some (k : Int))
  match nameidx with
  | some c =>
    if (pyLen row : Int) ≤ c then
      match smilesColIdx with
      | none => throw .attributeError
      | some _ => throw .indexError
    else pure ()
  | none => pure ()
  pure { file := file, offsets := offsets, dbN := dbN, hasHeader := hasHeader,
         sep := sep, N := N, colnames := colnames, smilesColIdx := smilesColIdx,
         nameidx := nameidx, nameFxn := nameFxn, nameGetterAttr := none }

/-! ### The index builders -/

/-- What a builder produces: the chosen offset-column width, the persisted
record index (store of `rows` rows), and the constructed reader. -/
structure BuiltIndex where
  dtypeBytes : Nat
  rows : Nat
  offsets : Nat → Nat
  mfi : Except PyErr MolFileIndex

/-- `MakeSmilesIndex(filename, dbdir, hasHeader, smilesColumn, nameColumn,
sep)` (lines 156-180): count lines, pick the dtype from the line count,
create an `N+1`-row store, write `offset[0] = 0`, then
`offset[i+1] = pos+1` for the `i`-th newline position `pos`. -/
def MakeSmilesIndex (F : Bytes) (hasHeader : Bool)
    (smilesColumn nameColumn : ColSel) (sep : Option Bytes) : BuiltIndex :=
  let N := simplecount F
  let dtype := dtypeFor N
  let db := putRow zeroStore 0 0
  let db := writeOffsets db 0 (index F nl)
  { dtypeBytes := dtype, rows := N + 1, offsets := db,
    mfi := MolFileIndex.make F db (N + 1) hasHeader sep smilesColumn nameColumn none }

/-- `MakeSDFIndex(filename, dbdir)` (lines 185-209): same line count and
dtype selection, scan for `b"$$$$\n"`, create the store and write row 0;
the loop body `db.putRow(i+1, [pos+1])` names `pos`, which is unbound in
this function, so the first iteration raises `NameError`; with no
occurrence the loop body never runs and construction completes. -/
def MakeSDFIndex (F : Bytes) : Except PyErr BuiltIndex :=
  let N := simplecount F
  let dtype := dtypeFor N
  let indices := index F sdfTerminator
  let db := putRow zeroStore 0 0
  match indices with
  | [] =>
    .ok { dtypeBytes := dtype, rows := N + 1, offsets := db,
          mfi := MolFileIndex.make F db (N + 1) false none
                  (.idx (-1)) (.idx (-1)) (some SDFNameGetter) }
  | _ :: _ => .error .nameError

/-! ### Correctness of the byte-offset scanner -/

/-- Unfolding equation for one pass of the scanner loop. -/
lemma scanFrom_succ (F T : Bytes) (bsize fuel p : Nat) :
    scanFrom F T bsize (fuel + 1) p =
      (let p' := if T.length - 1 ≤ p ∧ p < F.length then p - (T.length - 1) else p
       let buffer := (F.drop p').take bsize
       if buffer = [] then []
       else
         ((findAll buffer T (buffer.length + 1) 0).map
             (fun q => p' + buffer.length - (buffer.length - q)))
           ++ scanFrom F T bsize fuel (p' + buffer.length)) := rfl

/-- A failed `find` means no match position in the remaining search window. -/
lemma findFrom_none {buf T : Bytes} :
    ∀ {fuel k : Nat}, buf.length + 1 ≤ fuel + k →
      findFrom buf T fuel k = none →
      (List.range' k (buf.length + 1 - T.length - k)).filter (matchAt buf T)
        = [] := by
  intro fuel
  induction fuel with
  | zero =>
    intro k hk _
    rw [show buf.length + 1 - T.length - k = 0 from by omega]
    rfl
  | succ fuel ih =>
    intro k hk hnone
    rw [findFrom] at hnone
    by_cases h1 : buf.length < k + T.length
    · rw [show buf.length + 1 - T.length - k = 0 from by omega]
      rfl
    · rw [if_neg h1] at hnone
      by_cases h2 : matchAt buf T k
      · rw [if_pos h2] at hnone
        exact absurd hnone (by simp)
      · rw [if_neg h2] at hnone
        have hc : buf.length + 1 - T.length - k
            = (buf.length + 1 - T.length - (k + 1)) + 1 := by omega
        rw [hc, List.range'_succ, List.filter_cons_of_neg h2]
        exact ih (by omega) hnone

/-- A successful `find` returns the least match position at or after `k`. -/
lemma findFrom_some {buf T : Bytes} :
    ∀ {fuel k q : Nat}, findFrom buf T fuel k = some q →
      k ≤ q ∧ matchAt buf T q = true ∧ q + T.length ≤ buf.length ∧
      (List.range' k (buf.length + 1 - T.length - k)).filter (matchAt buf T)
        = q :: (List.range' (q + 1) (buf.length + 1 - T.length - (q + 1))).filter
            (matchAt buf T) := by
  intro fuel
  induction fuel with
  | zero => intro k q h; exact absurd h (by simp [findFrom])
  | succ fuel ih =>
    intro k q h
    rw [findFrom] at h
    by_cases h1 : buf.length < k + T.length
    · rw [if_pos h1] at h
      exact absurd h (by simp)
    · rw [if_neg h1] at h
      by_cases h2 : matchAt buf T k
      · rw [if_pos h2] at h
        have hq : k = q := by injection h
        subst hq
        refine ⟨Nat.le_refl k, h2, by omega, ?_⟩
        have hc : buf.length + 1 - T.length - k
            = (buf.length + 1 - T.length - (k + 1)) + 1 := by omega
        rw [hc, List.range'_succ, List.filter_cons_of_pos h2]
      · rw [if_neg h2] at h
        obtain ⟨ha, hb, hc, hd⟩ := ih h
        refine ⟨by omega, hb, hc, ?_⟩
        have he : buf.length + 1 - T.length - k
            = (buf.length + 1 - T.length - (k + 1)) + 1 := by omega
        rw [he, List.range'_succ, List.filter_cons_of_neg h2, hd]

/-- The inner match loop reports exactly the match positions from `k` on,
in increasing order. -/
lemma findAll_eq {buf T : Bytes} :
    ∀ {fuel k : Nat}, buf.length + 1 ≤ fuel + k →
      findAll buf T fuel k =
        (List.range' k (buf.length + 1 - T.length - k)).filter (matchAt buf T) := by
  intro fuel
  induction fuel with
  | zero =>
    intro k hk
    rw [show buf.length + 1 - T.length - k = 0 from by omega]
    rfl
  | succ fuel ih =>
    intro k hk
    rw [findAll]
    cases hf : findFrom buf T (buf.length + 1) k with
    | none => exact (findFrom_none (by omega) hf).symm
    | some q =>
      obtain ⟨ha, _, _, hd⟩ := findFrom_some hf
      rw [hd]
      dsimp only
      rw [ih (show buf.length + 1 ≤ fuel + (q + 1) from by omega)]

/-- Mapping a shift over a filtered position range is a filtered shifted
range, as long as the two predicates agree pointwise on the range. -/
lemma filter_range'_map_shift (P Q : Nat → Bool) (d : Nat) :
    ∀ (n a : Nat), (∀ i, a ≤ i → i < a + n → P i = Q (d + i)) →
      ((List.range' a n).filter P).map (fun q => d + q)
        = (List.range' (d + a) n).filter Q := by
  intro n
  induction n with
  | zero => intro a _; rfl
  | succ n ih =>
    intro a hpq
    rw [List.range'_succ, List.range'_succ]
    by_cases hPa : P a
    · rw [List.filter_cons_of_pos hPa, List.map_cons,
        List.filter_cons_of_pos (by rw [← hpq a (Nat.le_refl a) (by omega)]; exact hPa)]
      have := ih (a + 1) (fun i hi hi2 => hpq i (by omega) (by omega))
      rw [this, Nat.add_assoc]
    · rw [List.filter_cons_of_neg hPa,
        List.filter_cons_of_neg (by rw [← hpq a (Nat.le_refl a) (by omega)]; exact hPa)]
      have := ih (a + 1) (fun i hi hi2 => hpq i (by omega) (by omega))
      rw [this, Nat.add_assoc]

/-- A window of the block at in-block position `i` is the same bytes as the
window of the file at absolute position `p' + i`. -/
lemma window_match (F T : Bytes) (bsize p' i : Nat)
    (h : i + T.length ≤ ((F.drop p').take bsize).length) :
    (((F.drop p').take bsize).drop i).take T.length
      = (F.drop (p' + i)).take T.length := by
  have hlen : ((F.drop p').take bsize).length = min bsize (F.length - p') := by
    simp
  have hib : i + T.length ≤ bsize := by omega
  rw [List.drop_take, List.drop_drop, List.take_take,
    Nat.min_eq_left (by omega : T.length ≤ bsize - i)]

/-- A window of the block matches `T` exactly when the file matches `T` at
the corresponding absolute position. -/
lemma matchAt_window (F T : Bytes) (bsize p' i : Nat)
    (h : i < ((F.drop p').take bsize).length + 1 - T.length) :
    matchAt ((F.drop p').take bsize) T i = matchAt F T (p' + i) := by
  rw [matchAt, matchAt, window_match F T bsize p' i (by omega)]

/-- The offsets the scanner reports for one block are exactly the absolute
match positions inside that block's window. -/
lemma block_emit (F T : Bytes) (bsize p' : Nat) :
    ((findAll ((F.drop p').take bsize) T (((F.drop p').take bsize).length + 1) 0).map
        (fun q => p' + ((F.drop p').take bsize).length
          - (((F.drop p').take bsize).length - q)))
      = (List.range' p' (((F.drop p').take bsize).length + 1 - T.length)).filter
          (matchAt F T) := by
  rw [findAll_eq (by omega)]
  rw [Nat.sub_zero]
  have hmap : ((List.range' 0 (((F.drop p').take bsize).length + 1 - T.length)).filter
        (matchAt ((F.drop p').take bsize) T)).map
          (fun q => p' + ((F.drop p').take bsize).length
            - (((F.drop p').take bsize).length - q))
      = ((List.range' 0 (((F.drop p').take bsize).length + 1 - T.length)).filter
          (matchAt ((F.drop p').take bsize) T)).map (fun q => p' + q) := by
    refine List.map_congr_left ?_
    intro q hq
    have hq2 := List.mem_range'_1.mp (List.mem_of_mem_filter hq)
    omega
  rw [hmap]
  have := filter_range'_map_shift (matchAt ((F.drop p').take bsize) T)
    (matchAt F T) p' (((F.drop p').take bsize).length + 1 - T.length) 0
    (fun i hi hi2 => matchAt_window F T bsize p' i (by omega))
  rw [this, Nat.add_zero]

/-- Once the file position has reached EOF the scanner stops with no
further output. -/
lemma scanFrom_at_end (F T : Bytes) (bsize : Nat) :
    ∀ fuel, scanFrom F T bsize fuel F.length = [] := by
  intro fuel
  cases fuel with
  | zero => rfl
  | succ fuel =>
    rw [scanFrom_succ]
    simp [List.drop_length]

/-- Main loop invariant: from a reachable position `p` (past the first
block, `overlap ≤ p ≤ fsize`), the scanner emits exactly the match
positions from `p - overlap` on. -/
lemma scanFrom_eq_occ (F T : Bytes) (bsize : Nat)
    (hw : 1 ≤ T.length) (hb : T.length ≤ bsize) :
    ∀ fuel p, T.length - 1 ≤ p → p ≤ F.length → F.length - p < fuel →
      scanFrom F T bsize fuel p
        = (List.range' (p - (T.length - 1))
              (F.length + 1 - T.length - (p - (T.length - 1)))).filter
            (matchAt F T) := by
  intro fuel
  induction fuel with
  | zero => intro p h1 h2 h3; omega
  | succ fuel ih =>
    intro p h1 h2 h3
    by_cases hpN : p = F.length
    · subst hpN
      rw [scanFrom_at_end,
        show F.length + 1 - T.length - (F.length - (T.length - 1)) = 0 from by omega]
      rfl
    · have hpN' : p < F.length := by omega
      rw [scanFrom_succ]
      simp only [if_pos (⟨h1, hpN'⟩ : T.length - 1 ≤ p ∧ p < F.length)]
      have hlen : ((F.drop (p - (T.length - 1))).take bsize).length
          = min bsize (F.length - (p - (T.length - 1))) := by simp
      have hwin : T.length ≤ F.length - (p - (T.length - 1)) := by omega
      have hblen : T.length ≤ ((F.drop (p - (T.length - 1))).take bsize).length := by
        omega
      rw [if_neg (List.ne_nil_of_length_pos (by omega))]
      rw [block_emit]
      rw [ih (p - (T.length - 1) + ((F.drop (p - (T.length - 1))).take bsize).length)
        (by omega) (by omega) (by omega)]
      rw [show p - (T.length - 1) + ((F.drop (p - (T.length - 1))).take bsize).length
            - (T.length - 1)
          = p - (T.length - 1)
            + (((F.drop (p - (T.length - 1))).take bsize).length + 1 - T.length)
        from by omega]
      rw [← List.filter_append, List.range'_append_1]
      rw [show F.length + 1 - T.length
            - (p - (T.length - 1)
              + (((F.drop (p - (T.length - 1))).take bsize).length + 1 - T.length))
            + (((F.drop (p - (T.length - 1))).take bsize).length + 1 - T.length)
          = F.length + 1 - T.length - (p - (T.length - 1)) from by omega]

/-- The scanner is the single-buffer matcher, for any block size at least
the terminator's length. -/
lemma indexScan_eq_occ (F T : Bytes) (bsize : Nat)
    (hw : 1 ≤ T.length) (hb : T.length ≤ bsize) :
    indexScan F T bsize = occList F T := by
  rw [indexScan, scanFrom_succ]
  have hp' : (if T.length - 1 ≤ 0 ∧ 0 < F.length then 0 - (T.length - 1) else 0)
      = 0 := by split <;> omega
  simp only [hp', List.drop_zero]
  by_cases hF : F = []
  · subst hF
    rw [if_pos (by simp)]
    rw [occList, show ([] : Bytes).length + 1 - T.length = 0 from by
      simp only [List.length_nil]; omega]
    rfl
  · have hN : 0 < F.length := List.length_pos.mpr hF
    have hlen : (F.take bsize).length = min bsize F.length := by simp
    rw [if_neg (List.ne_nil_of_length_pos (by omega))]
    have hbe := block_emit F T bsize 0
    simp only [List.drop_zero] at hbe
    rw [hbe, Nat.zero_add]
    by_cases hsm : bsize < F.length
    · have hblen : (F.take bsize).length = bsize := by omega
      rw [scanFrom_eq_occ F T bsize hw hb (F.length + 1) (F.take bsize).length
        (by omega) (by omega) (by omega)]
      rw [show (F.take bsize).length - (T.length - 1)
          = 0 + ((F.take bsize).length + 1 - T.length) from by omega]
      rw [← List.filter_append, List.range'_append_1]
      rw [occList]
      rw [show F.length + 1 - T.length - (0 + ((F.take bsize).length + 1 - T.length))
            + ((F.take bsize).length + 1 - T.length)
          = F.length + 1 - T.length from by omega]
    · have hblen : (F.take bsize).length = F.length := by omega
      rw [hblen, scanFrom_at_end, List.append_nil, occList]

/-- The scanner with a block size larger than the whole file is the
single-buffer matcher (one read captures the entire file). -/
lemma indexScan_big (F T : Bytes) (bsize : Nat)
    (hw : 1 ≤ T.length) (hN : F.length < bsize) :
    indexScan F T bsize = occList F T := by
  by_cases hwb : T.length ≤ bsize
  · exact indexScan_eq_occ F T bsize hw hwb
  · -- terminator longer than the block (hence than the file): no match fits
    rw [indexScan, scanFrom_succ]
    have hp' : (if T.length - 1 ≤ 0 ∧ 0 < F.length then 0 - (T.length - 1) else 0)
        = 0 := by split <;> omega
    simp only [hp', List.drop_zero]
    by_cases hF : F = []
    · subst hF
      rw [if_pos (by simp)]
      rw [occList, show ([] : Bytes).length + 1 - T.length = 0 from by
        simp only [List.length_nil]; omega]
      rfl
    · have hN0 : 0 < F.length := List.length_pos.mpr hF
      have hlen : (F.take bsize).length = min bsize F.length := by simp
      rw [if_neg (List.ne_nil_of_length_pos (by omega))]
      have hbe := block_emit F T bsize 0
      simp only [List.drop_zero] at hbe
      rw [hbe, Nat.zero_add]
      have hblen : (F.take bsize).length = F.length := by omega
      rw [hblen, scanFrom_at_end]
      rw [show F.length + 1 - T.length = 0 from by omega]
      rw [occList, show F.length + 1 - T.length = 0 from by omega]
      rfl

/-- The scanner's output is strictly increasing. -/
lemma occList_pairwise (F T : Bytes) :
    List.Pairwise (· < ·) (occList F T) :=
  (List.pairwise_lt_range' 0 (F.length + 1 - T.length)).filter _

/-- Membership in the single-buffer match list: exactly the positions where
the terminator occurs, byte for byte. -/
lemma occList_mem (F T : Bytes) (q : Nat) :
    q ∈ occList F T ↔ (F.drop q).take T.length = T ∧ q + T.length ≤ F.length := by
  rw [occList, List.mem_filter, List.mem_range'_1, matchAt, beq_iff_eq]
  constructor
  · rintro ⟨⟨_, hq⟩, hm⟩
    refine ⟨hm, ?_⟩
    omega
  · rintro ⟨hm, hle⟩
    refine ⟨⟨Nat.zero_le q, ?_⟩, hm⟩
    omega

/-! ### The record index built by `MakeSmilesIndex` -/

/-- Rows at or below `i` are untouched by the offset-writing loop started
at enumeration index `i`. -/
lemma writeOffsets_low :
    ∀ (ps : List Nat) (db : Nat → Nat) (i j : Nat), j ≤ i →
      writeOffsets db i ps j = db j := by
  intro ps
  induction ps with
  | nil => intro db i j _; rfl
  | cons pos ps ih =>
    intro db i j h
    rw [writeOffsets, ih _ (i + 1) j (by omega), putRow, if_neg (by omega)]

/-- Row `i + 1 + k` of the written store holds the `k`-th scanned position
plus one. -/
lemma writeOffsets_get :
    ∀ (ps : List Nat) (db : Nat → Nat) (i k : Nat) (hk : k < ps.length),
      writeOffsets db i ps (i + 1 + k) = ps.get ⟨k, hk⟩ + 1 := by
  intro ps
  induction ps with
  | nil => intro db i k hk; exact absurd hk (by simp)
  | cons pos ps ih =>
    intro db i k hk
    cases k with
    | zero =>
      rw [writeOffsets, writeOffsets_low ps _ (i + 1) (i + 1 + 0) (by omega),
        putRow, if_pos (by omega)]
      rfl
    | succ k =>
      rw [writeOffsets, show i + 1 + (k + 1) = (i + 1) + 1 + k from by omega,
        ih _ (i + 1) k (by simpa using hk)]
      rfl

/-- The offsets persisted by `MakeSmilesIndex`: row `0` holds `0`. -/
lemma smiles_offsets_zero (F : Bytes) (hasHeader : Bool)
    (sc ncol : ColSel) (sp : Option Bytes) :
    (MakeSmilesIndex F hasHeader sc ncol sp).offsets 0 = 0 := by
  show writeOffsets (putRow zeroStore 0 0) 0 (index F nl) 0 = 0
  rw [writeOffsets_low _ _ 0 0 (Nat.le_refl 0), putRow, if_pos rfl]

/-- The offsets persisted by `MakeSmilesIndex`: row `k + 1` holds the `k`-th
newline position plus one. -/
lemma smiles_offsets_succ (F : Bytes) (hasHeader : Bool)
    (sc ncol : ColSel) (sp : Option Bytes) (k : Nat) (hk : k < (index F nl).length) :
    (MakeSmilesIndex F hasHeader sc ncol sp).offsets (k + 1)
      = (index F nl).get ⟨k, hk⟩ + 1 := by
  show writeOffsets (putRow zeroStore 0 0) 0 (index F nl) (k + 1) = _
  rw [show k + 1 = 0 + 1 + k from by omega, writeOffsets_get _ _ 0 k hk]

/-- The scanned newline positions are exactly the single-buffer matches. -/
lemma index_nl_eq_occ (F : Bytes) : index F nl = occList F nl := by
  rw [index]
  exact indexScan_eq_occ F nl 65536 (by decide) (by decide)

/-- Consecutive scanned newline positions are strictly increasing. -/
lemma index_nl_get_lt (F : Bytes) (k : Nat) (h1 : k < (index F nl).length)
    (h2 : k + 1 < (index F nl).length) :
    (index F nl).get ⟨k, h1⟩ < (index F nl).get ⟨k + 1, h2⟩ := by
  have hp : List.Pairwise (· < ·) (index F nl) := by
    rw [index_nl_eq_occ]; exact occList_pairwise F nl
  exact List.pairwise_iff_get.mp hp ⟨k, h1⟩ ⟨k + 1, h2⟩ (by simp)

/-- The number of single-char matches is the char count. -/
lemma occList_single_length (c : Char) : ∀ F : Bytes,
    (occList F [c]).length = F.count c := by
  intro F
  induction F with
  | nil => rfl
  | cons a F ih =>
    rw [occList, show (a :: F : Bytes).length + 1 - ([c] : Bytes).length
        = F.length + 1 from by simp]
    rw [List.range'_succ]
    have hshift := filter_range'_map_shift (matchAt F [c]) (matchAt (a :: F) [c]) 1
      F.length 0 (fun i _ _ => by
        rw [matchAt, matchAt, show (1 : Nat) + i = i + 1 from by omega,
          List.drop_succ_cons])
    have hlen : ((List.range' 1 F.length).filter (matchAt (a :: F) [c])).length
        = (occList F [c]).length := by
      rw [show (1 : Nat) = 1 + 0 from rfl, ← hshift, List.length_map, occList]
      rw [show F.length + 1 - ([c] : Bytes).length = F.length from by simp]
    rw [List.count_cons]
    by_cases hac : a = c
    · rw [List.filter_cons_of_pos (by
        rw [matchAt]; simp [hac])]
      simp only [List.length_cons, hlen, ih]
      simp [hac]
    · rw [List.filter_cons_of_neg (by
        rw [matchAt]; simp [List.take_succ_cons, hac])]
      rw [hlen, ih]
      simp [hac]

/-- For a file ending in a newline, `simplecount` is exactly the number of
newline terminators the scanner reports. -/
lemma simplecount_eq_index_length (F : Bytes) (h : F.getLast? = some '\n') :
    simplecount F = (index F nl).length := by
  rw [simplecount, h, index_nl_eq_occ, nl, occList_single_length]
  simp

/-! ### Reduction of the constructor on `-1` column selectors -/

/-- Construction with integer column selectors `-1` always succeeds, and
leaves both `smilesColIdx` and `nameidx` unassigned. -/
lemma make_idx_ok (file : Bytes) (offsets : Nat → Nat) (dbN : Nat)
    (hh : Bool) (sp : Option Bytes) (nf : Option (Bytes → Bytes)) :
    MolFileIndex.make file offsets dbN hh sp (.idx (-1)) (.idx (-1)) nf
      = .ok { file := file, offsets := offsets, dbN := dbN, hasHeader := hh,
              sep := sp,
              N := if hh then (dbN : Int) - 3 else (dbN : Int) - 2,
              colnames :=
                if hh then mget file offsets hh sp none
                else .fields ((List.range
                  (pyLen (mget file offsets hh sp (some 0)))).map columnName),
              smilesColIdx := none, nameidx := none, nameFxn := nf,
              nameGetterAttr := none } := rfl

/-- Reading a record through a `-1`-selector construction is reading through
`mget` on the same store. -/
lemma make_map_get (file : Bytes) (offsets : Nat → Nat) (dbN : Nat)
    (hh : Bool) (sp : Option Bytes) (nf : Option (Bytes → Bytes)) (i : Nat) :
    (MolFileIndex.make file offsets dbN hh sp (.idx (-1)) (.idx (-1)) nf).map
        (fun m => MolFileIndex._get m (some i))
      = .ok (mget file offsets hh sp (some i)) := rfl

/-! ### Record round-trip through the built index -/

/-- The `i`-th newline-terminated record of `F`: the bytes after the
previous terminator up to (and excluding) terminator `i`, located through
the scanner's reported terminator positions.  This is the comparison target
for the read contract of `_get`. -/
def recordBytes (F : Bytes) (i : Nat) : Bytes :=
  let start := if i = 0 then 0 else (index F nl).getD (i - 1) 0 + 1
  (F.drop start).take ((index F nl).getD i 0 - start)

/-- Reading row `i` of the record index built by `MakeSmilesIndex` seeks to
`offset[i]` and reads `offset[i+1] - offset[i] - 1` bytes, which is exactly
record `i` with its newline stripped. -/
lemma built_read (F : Bytes) (hh : Bool) (sc ncol : ColSel) (sp : Option Bytes)
    (i : Nat) (hi : i < (index F nl).length) :
    pyRead F ((MakeSmilesIndex F hh sc ncol sp).offsets i)
      (((MakeSmilesIndex F hh sc ncol sp).offsets (i + 1) : Int)
        - ((MakeSmilesIndex F hh sc ncol sp).offsets i : Int) - 1)
      = recordBytes F i := by
  have hsucc := smiles_offsets_succ F hh sc ncol sp i hi
  have hgetD : (index F nl).getD i 0 = (index F nl).get ⟨i, hi⟩ := by
    rw [List.getD_eq_getElem?_getD, List.getElem?_eq_getElem hi]
    rfl
  cases i with
  | zero =>
    have hzero := smiles_offsets_zero F hh sc ncol sp
    rw [hzero, hsucc, recordBytes]
    simp only [if_pos rfl, hgetD]
    rw [pyRead, if_neg (by push_cast; omega)]
    congr 1
    push_cast
    omega
  | succ k =>
    have hk : k < (index F nl).length := by omega
    have hprev := smiles_offsets_succ F hh sc ncol sp k hk
    have hlt : (index F nl).get ⟨k, hk⟩ < (index F nl).get ⟨k + 1, hi⟩ :=
      index_nl_get_lt F k hk hi
    have hgetDk : (index F nl).getD k 0 = (index F nl).get ⟨k, hk⟩ := by
      rw [List.getD_eq_getElem?_getD, List.getElem?_eq_getElem hk]
      rfl
    rw [hprev, hsucc, recordBytes]
    simp only [Nat.add_sub_cancel, if_neg (Nat.succ_ne_zero k), hgetD, hgetDk]
    rw [pyRead, if_neg (by push_cast; omega)]
    congr 1
    push_cast
    omega

/-! ### Claims -/

/-- C1: for the source file `"a,1\nbb,2\ncc,3\n"` indexed by
`MakeSmilesIndex` (terminator `"\n"`, no header), the persisted record
index holds offsets `[0, 4, 9, 14]` over `4` rows, and `get_raw(0)` /
`get_raw(2)` return `"a,1"` / `"cc,3"` — but the externally visible record
count `MolFileIndex.N` is `db.N - 2 = 2`, not the `3` the claim states. -/
theorem C1_concrete_scenario :
    (List.range 4).map
        (MakeSmilesIndex "a,1\nbb,2\ncc,3\n".data false (.idx (-1)) (.idx (-1)) none).offsets
      = [0, 4, 9, 14]
    ∧ (MakeSmilesIndex "a,1\nbb,2\ncc,3\n".data false (.idx (-1)) (.idx (-1)) none).rows = 4
    ∧ (MakeSmilesIndex "a,1\nbb,2\ncc,3\n".data false (.idx (-1)) (.idx (-1)) none).mfi.map
        (fun m => m.N) = .ok 2
    ∧ (MakeSmilesIndex "a,1\nbb,2\ncc,3\n".data false (.idx (-1)) (.idx (-1)) none).mfi.map
        (fun m => m.N) ≠ .ok 3
    ∧ (MakeSmilesIndex "a,1\nbb,2\ncc,3\n".data false (.idx (-1)) (.idx (-1)) none).mfi.map
        (fun m => m.get 0) = .ok (.raw "a,1".data)
    ∧ (MakeSmilesIndex "a,1\nbb,2\ncc,3\n".data false (.idx (-1)) (.idx (-1)) none).mfi.map
        (fun m => m.get 2) = .ok (.raw "cc,3".data) := by
  refine ⟨by decide, rfl, rfl, ?_, rfl, rfl⟩
  intro h
  have hv : (MakeSmilesIndex "a,1\nbb,2\ncc,3\n".data false (.idx (-1)) (.idx (-1)) none).mfi.map
      (fun m => m.N) = Except.ok (2 : Int) := rfl
  rw [hv] at h
  injection h with h3
  exact absurd h3 (by decide)

/-- C2 counterexample: for the file `"aaa"` and terminator `"aa"` the
scanner yields one entry per *overlapping* occurrence (`[0, 1]`), not one
entry per non-overlapping occurrence (`[0]`). -/
theorem C2_counterexample :
    index ['a', 'a', 'a'] ['a', 'a'] = [0, 1]
    ∧ nonOverlapOccs ['a', 'a', 'a'] ['a', 'a'] = [0]
    ∧ index ['a', 'a', 'a'] ['a', 'a'] ≠ nonOverlapOccs ['a', 'a', 'a'] ['a', 'a'] :=
  ⟨by decide, by decide, by decide⟩

/-- C2 (amended): for every file `F` and every nonempty terminator `T` of
at most the block size (`2^16` bytes), the scanner's output is finite,
equal to the list of all (overlapping included) occurrence positions of `T`
in `F`, strictly increasing, byte-exact at each reported position; an empty
file, or a file with no occurrence, yields the empty sequence. -/
theorem C2_scan_contract (F T : Bytes) (h1 : 1 ≤ T.length) (h2 : T.length ≤ 65536) :
    index F T = occList F T
    ∧ List.Pairwise (· < ·) (index F T)
    ∧ (∀ q ∈ index F T, (F.drop q).take T.length = T ∧ q + T.length ≤ F.length)
    ∧ (F = [] → index F T = [])
    ∧ ((∀ q, matchAt F T q = false) → index F T = []) := by
  have hix : index F T = occList F T := by
    rw [index]
    exact indexScan_eq_occ F T 65536 h1 h2
  refine ⟨hix, ?_, ?_, ?_, ?_⟩
  · rw [hix]
    exact occList_pairwise F T
  · intro q hq
    rw [hix] at hq
    exact (occList_mem F T q).mp hq
  · intro hF
    subst hF
    rw [hix, occList, show ([] : Bytes).length + 1 - T.length = 0 from by
      simp only [List.length_nil]; omega]
    rfl
  · intro hall
    rw [hix, occList, List.filter_eq_nil_iff]
    intro a _
    rw [hall a]
    simp

/-- C2 witness: the contract instantiated on a concrete file and the
newline terminator. -/
theorem C2_scan_contract_witness :
    (1 ≤ nl.length ∧ nl.length ≤ 65536)
    ∧ (index "ab\ncd\n".data nl = occList "ab\ncd\n".data nl
       ∧ List.Pairwise (· < ·) (index "ab\ncd\n".data nl)
       ∧ (∀ q ∈ index "ab\ncd\n".data nl,
            ("ab\ncd\n".data.drop q).take nl.length = nl
              ∧ q + nl.length ≤ "ab\ncd\n".data.length)
       ∧ ("ab\ncd\n".data = [] → index "ab\ncd\n".data nl = [])
       ∧ ((∀ q, matchAt "ab\ncd\n".data nl q = false) → index "ab\ncd\n".data nl = [])) :=
  ⟨⟨by decide, by decide⟩, C2_scan_contract "ab\ncd\n".data nl (by decide) (by decide)⟩

/-- C3: `MakeSmilesIndex` does write `offset[0] = 0` and
`offset[i+1] = p_i + len("\n")` (shown here on the file `"ab\n$$$$\n"`,
whose newlines are at `2` and `7`), but `MakeSDFIndex` on the same file —
one `"$$$$\n"` occurrence at `3`, so the claim expects `offset[1] = 8` —
raises `NameError` instead: its loop body writes `[pos+1]` where `pos` is
an unbound name. -/
theorem C3_builder_offsets :
    (MakeSmilesIndex "ab\n$$$$\n".data false (.idx (-1)) (.idx (-1)) none).offsets 0 = 0
    ∧ (MakeSmilesIndex "ab\n$$$$\n".data false (.idx (-1)) (.idx (-1)) none).offsets 1 = 2 + 1
    ∧ (MakeSmilesIndex "ab\n$$$$\n".data false (.idx (-1)) (.idx (-1)) none).offsets 2 = 7 + 1
    ∧ index "ab\n$$$$\n".data sdfTerminator = [3]
    ∧ sdfTerminator.length = 5
    ∧ MakeSDFIndex "ab\n$$$$\n".data = .error .nameError :=
  ⟨rfl, rfl, rfl, by decide, by decide, rfl⟩

/-- C4: with `hasHeader` true, `get(i)` applies the header shift twice
(once itself, once in `_get`), so logical row `0` of `"h\na\nb\n"` reads
physical record `2` (`"b"`), not physical record `1` (`"a"`) as the claim
states; physical record `1` spans offsets `[2, 4)` and reads `"a"`. -/
theorem C4_header_shift :
    (MakeSmilesIndex "h\na\nb\n".data true (.idx (-1)) (.idx (-1)) none).mfi.map
        (fun m => m.get 0) = .ok (.raw "b".data)
    ∧ (MakeSmilesIndex "h\na\nb\n".data true (.idx (-1)) (.idx (-1)) none).offsets 1 = 2
    ∧ (MakeSmilesIndex "h\na\nb\n".data true (.idx (-1)) (.idx (-1)) none).offsets 2 = 4
    ∧ pyRead "h\na\nb\n".data 2 ((4 : Int) - 2 - 1) = "a".data
    ∧ GetResult.raw "b".data ≠ GetResult.raw "a".data :=
  ⟨rfl, rfl, rfl, by decide, by decide⟩

/-- C5 counterexample: on a store with the intended SDF offsets
`[0, 7, 14]` for the file `"X\n$$$$\nY\n$$$$\n"` (terminator `"$$$$\n"`,
length 5), `_get(0)` reads `offset[1] - offset[0] - 1 = 6` bytes
(`"X\n$$$$"`), not the `offset[1] - offset[0] - 5 = 2` bytes the claim
states. -/
theorem C5_counterexample :
    (MolFileIndex.make "X\n$$$$\nY\n$$$$\n".data (offsOf [0, 7, 14]) 3 false none
        (.idx (-1)) (.idx (-1)) none).map (fun m => MolFileIndex._get m (some 0))
      = .ok (.raw "X\n$$$$".data)
    ∧ ("X\n$$$$".data : Bytes).length = 7 - 0 - 1
    ∧ sdfTerminator.length = 5
    ∧ (7 - 0 - 1 : Nat) ≠ 7 - 0 - 5 :=
  ⟨rfl, by decide, by decide, by decide⟩

/-- C5 (amended): `_get` always reads
`offset[row+1] - offset[row] - 1` bytes — the terminator length is
hardcoded to one byte — and splits on the separator when one is configured;
for the 1-byte newline terminator of `MakeSmilesIndex` this returns exactly
record `i` with its terminator stripped. -/
theorem C5_get_read_length (F : Bytes) (i : Nat) (hi : i < (index F nl).length) :
    (MakeSmilesIndex F false (.idx (-1)) (.idx (-1)) none).mfi.map
        (fun m => MolFileIndex._get m (some i)) = .ok (.raw (recordBytes F i))
    ∧ ∀ s : Bytes, s ≠ [] →
        (MakeSmilesIndex F false (.idx (-1)) (.idx (-1)) (some s)).mfi.map
          (fun m => MolFileIndex._get m (some i))
        = .ok (.fields (pySplit (recordBytes F i) s)) := by
  constructor
  · rw [show (MakeSmilesIndex F false (.idx (-1)) (.idx (-1)) none).mfi.map
        (fun m => MolFileIndex._get m (some i))
      = .ok (mget F (MakeSmilesIndex F false (.idx (-1)) (.idx (-1)) none).offsets
          false none (some i)) from rfl]
    rw [mget]
    rw [show (if false = true then i + 1 else i) = i from rfl]
    rw [built_read F false (.idx (-1)) (.idx (-1)) none i hi]
  · intro s hs
    rw [show (MakeSmilesIndex F false (.idx (-1)) (.idx (-1)) (some s)).mfi.map
        (fun m => MolFileIndex._get m (some i))
      = .ok (mget F (MakeSmilesIndex F false (.idx (-1)) (.idx (-1)) (some s)).offsets
          false (some s) (some i)) from rfl]
    rw [mget]
    rw [show (if false = true then i + 1 else i) = i from rfl]
    rw [built_read F false (.idx (-1)) (.idx (-1)) (some s) i hi, if_neg hs]

/-- C5 witness: record `0` of `"ab\ncd\n"` is `"ab"`, raw and split. -/
theorem C5_get_read_length_witness :
    (0 < (index "ab\ncd\n".data nl).length)
    ∧ ((MakeSmilesIndex "ab\ncd\n".data false (.idx (-1)) (.idx (-1)) none).mfi.map
          (fun m => MolFileIndex._get m (some 0))
        = .ok (.raw (recordBytes "ab\ncd\n".data 0))
      ∧ ∀ s : Bytes, s ≠ [] →
          (MakeSmilesIndex "ab\ncd\n".data false (.idx (-1)) (.idx (-1)) (some s)).mfi.map
            (fun m => MolFileIndex._get m (some 0))
          = .ok (.fields (pySplit (recordBytes "ab\ncd\n".data 0) s))) :=
  ⟨by decide, C5_get_read_length "ab\ncd\n".data 0 (by decide)⟩

/-- C6: the record index built by `MakeSmilesIndex` is strictly increasing
on rows `0..L`, and row `L` holds the byte position one past the final
newline terminator (`p + 1` for the last reported position `p`). -/
theorem C6_offsets_monotone (F : Bytes) :
    (∀ i, i < (index F nl).length →
      (MakeSmilesIndex F false (.idx (-1)) (.idx (-1)) none).offsets i
        < (MakeSmilesIndex F false (.idx (-1)) (.idx (-1)) none).offsets (i + 1))
    ∧ (∀ p, (index F nl).getLast? = some p →
      (MakeSmilesIndex F false (.idx (-1)) (.idx (-1)) none).offsets (index F nl).length
        = p + 1) := by
  constructor
  · intro i hi
    cases i with
    | zero =>
      rw [smiles_offsets_zero, smiles_offsets_succ F false (.idx (-1)) (.idx (-1)) none 0 hi]
      omega
    | succ k =>
      have hk : k < (index F nl).length := by omega
      rw [smiles_offsets_succ F false (.idx (-1)) (.idx (-1)) none k hk,
        smiles_offsets_succ F false (.idx (-1)) (.idx (-1)) none (k + 1) hi]
      have := index_nl_get_lt F k hk hi
      omega
  · intro p hp
    have hne : index F nl ≠ [] := by
      intro h0
      rw [h0] at hp
      exact absurd hp (by simp)
    have hlen : 0 < (index F nl).length := List.length_pos.mpr hne
    have hgl : (index F nl).get ⟨(index F nl).length - 1, by omega⟩ = p := by
      have := List.getLast?_eq_getElem? (index F nl)
      rw [hp, List.getElem?_eq_getElem (by omega)] at this
      injection this with h3
      exact h3.symm
    rw [show (index F nl).length = ((index F nl).length - 1) + 1 from by omega,
      smiles_offsets_succ F false (.idx (-1)) (.idx (-1)) none
        ((index F nl).length - 1) (by omega), hgl]

/-- C6 witness: the invariant on the concrete file `"a,1\nbb,2\ncc,3\n"`
(three newlines, last at byte 13). -/
theorem C6_offsets_monotone_witness :
    (0 < (index "a,1\nbb,2\ncc,3\n".data nl).length
      ∧ (index "a,1\nbb,2\ncc,3\n".data nl).getLast? = some 13)
    ∧ ((MakeSmilesIndex "a,1\nbb,2\ncc,3\n".data false (.idx (-1)) (.idx (-1)) none).offsets 0
        < (MakeSmilesIndex "a,1\nbb,2\ncc,3\n".data false (.idx (-1)) (.idx (-1)) none).offsets 1)
    ∧ (MakeSmilesIndex "a,1\nbb,2\ncc,3\n".data false (.idx (-1)) (.idx (-1)) none).offsets
        (index "a,1\nbb,2\ncc,3\n".data nl).length = 14 :=
  ⟨⟨by decide, by decide⟩,
    (C6_offsets_monotone "a,1\nbb,2\ncc,3\n".data).1 0 (by decide),
    (C6_offsets_monotone "a,1\nbb,2\ncc,3\n".data).2 13 (by decide)⟩

/-- C7: for every file and nonempty terminator, scanning with block size
`len(T)`, or any block size larger than the whole file, yields the same
sequence, namely the matches of `T` over the entire file held in a single
buffer (`findAll` on the whole file). -/
theorem C7_blocksize_independent (F T : Bytes) (hw : 1 ≤ T.length) :
    indexScan F T T.length = findAll F T (F.length + 1) 0
    ∧ (∀ B, F.length < B → indexScan F T B = findAll F T (F.length + 1) 0)
    ∧ indexScan F T T.length = occList F T := by
  have hfa : findAll F T (F.length + 1) 0 = occList F T := by
    rw [findAll_eq (by omega), Nat.sub_zero]
    rfl
  refine ⟨?_, ?_, ?_⟩
  · rw [hfa]
    exact indexScan_eq_occ F T T.length hw (Nat.le_refl _)
  · intro B hB
    rw [hfa]
    exact indexScan_big F T B hw hB
  · exact indexScan_eq_occ F T T.length hw (Nat.le_refl _)

/-- C7 witness: block-size independence on a concrete file and the SDF
terminator. -/
theorem C7_blocksize_independent_witness :
    (1 ≤ sdfTerminator.length)
    ∧ (indexScan "ab\n$$$$\ncd\n$$$$\n".data sdfTerminator sdfTerminator.length
        = findAll "ab\n$$$$\ncd\n$$$$\n".data sdfTerminator
            ("ab\n$$$$\ncd\n$$$$\n".data.length + 1) 0
      ∧ (∀ B, "ab\n$$$$\ncd\n$$$$\n".data.length < B →
          indexScan "ab\n$$$$\ncd\n$$$$\n".data sdfTerminator B
            = findAll "ab\n$$$$\ncd\n$$$$\n".data sdfTerminator
                ("ab\n$$$$\ncd\n$$$$\n".data.length + 1) 0)
      ∧ indexScan "ab\n$$$$\ncd\n$$$$\n".data sdfTerminator sdfTerminator.length
          = occList "ab\n$$$$\ncd\n$$$$\n".data sdfTerminator) :=
  ⟨by decide, C7_blocksize_independent "ab\n$$$$\ncd\n$$$$\n".data sdfTerminator (by decide)⟩

set_option maxRecDepth 40000 in
/-- C8 counterexample: both builders pick the width from `simplecount`,
the newline-line count.  On a file of 256 newlines there are zero
`"$$$$\n"`-terminated records, whose claimed smallest covering width is
`uint8` (1 byte), yet `MakeSDFIndex` picks `uint16` (2 bytes). -/
theorem C8_counterexample :
    (MakeSDFIndex (List.replicate 256 '\n')).toOption.map (fun b => b.dtypeBytes)
      = some 2
    ∧ index (List.replicate 256 '\n') sdfTerminator = []
    ∧ dtypeFor (index (List.replicate 256 '\n') sdfTerminator).length = 1
    ∧ (2 : Nat) ≠ 1 :=
  ⟨by decide, by decide, by decide, by decide⟩

/-- C8 (amended): both builders choose the dtype width from the file's
Python line count (`simplecount`) with thresholds `2^8`, `2^16`, `2^32`;
for `MakeSmilesIndex` on a newline-terminated file that count equals the
number of newline-terminated records, while `MakeSDFIndex` also uses the
newline-line count, not the `"$$$$\n"` record count. -/
theorem C8_width_selection (F : Bytes) (h : F.getLast? = some '\n') :
    simplecount F = (index F nl).length
    ∧ (∀ (hh : Bool) (sc ncol : ColSel) (sp : Option Bytes),
        (MakeSmilesIndex F hh sc ncol sp).dtypeBytes
          = dtypeFor ((index F nl).length))
    ∧ (∀ (G : Bytes) (bi : BuiltIndex), MakeSDFIndex G = .ok bi →
        bi.dtypeBytes = dtypeFor (simplecount G)) := by
  have hsc := simplecount_eq_index_length F h
  refine ⟨hsc, ?_, ?_⟩
  · intro hh sc ncol sp
    rw [show (MakeSmilesIndex F hh sc ncol sp).dtypeBytes
        = dtypeFor (simplecount F) from rfl, hsc]
  · intro G bi hok
    cases hI : index G sdfTerminator with
    | nil =>
      rw [show MakeSDFIndex G
          = (match index G sdfTerminator with
             | [] => Except.ok
                 { dtypeBytes := dtypeFor (simplecount G),
                   rows := simplecount G + 1,
                   offsets := putRow zeroStore 0 0,
                   mfi := MolFileIndex.make G (putRow zeroStore 0 0)
                     (simplecount G + 1) false none
                     (.idx (-1)) (.idx (-1)) (some SDFNameGetter) }
             | _ :: _ => Except.error PyErr.nameError) from rfl, hI] at hok
      injection hok with hok
      rw [← hok]
    | cons a as =>
      rw [show MakeSDFIndex G
          = (match index G sdfTerminator with
             | [] => Except.ok
                 { dtypeBytes := dtypeFor (simplecount G),
                   rows := simplecount G + 1,
                   offsets := putRow zeroStore 0 0,
                   mfi := MolFileIndex.make G (putRow zeroStore 0 0)
                     (simplecount G + 1) false none
                     (.idx (-1)) (.idx (-1)) (some SDFNameGetter) }
             | _ :: _ => Except.error PyErr.nameError) from rfl, hI] at hok
      exact absurd hok (by simp)

/-- C8 witness: the width selection on the concrete file `"a\nb\n"`. -/
theorem C8_width_selection_witness :
    ("a\nb\n".data.getLast? = some '\n')
    ∧ (simplecount "a\nb\n".data = (index "a\nb\n".data nl).length
      ∧ (∀ (hh : Bool) (sc ncol : ColSel) (sp : Option Bytes),
          (MakeSmilesIndex "a\nb\n".data hh sc ncol sp).dtypeBytes
            = dtypeFor ((index "a\nb\n".data nl).length))
      ∧ (∀ (G : Bytes) (bi : BuiltIndex), MakeSDFIndex G = .ok bi →
          bi.dtypeBytes = dtypeFor (simplecount G))) :=
  ⟨by decide, C8_width_selection "a\nb\n".data (by decide)⟩

/-- C9: when no name column is configured (`nameColumn = -1`) and no name
function is supplied, `getName` fails with `AttributeError` (the attribute
`self.nameidx` was never assigned), not with the `ValueError`
("does not have a name column or a name retriever") the claim states. -/
theorem C9_getName_attribute_error (file : Bytes) (offsets : Nat → Nat)
    (dbN : Nat) (hh : Bool) (sp : Option Bytes) :
    (∀ idx, (MolFileIndex.make file offsets dbN hh sp (.idx (-1)) (.idx (-1)) none).map
        (fun m => MolFileIndex.getName m idx) = .ok (.error .attributeError))
    ∧ PyErr.attributeError ≠ PyErr.valueError :=
  ⟨fun _ => rfl, by decide⟩

/-- C10: constructed with the integer default `smilesColumn = -1`, the
attribute `smilesColIdx` stays unassigned, so every `getMol` call fails
with `AttributeError` instead of reaching the fallback branch that would
return the whole record. -/
theorem C10_getMol_attribute_error (file : Bytes) (offsets : Nat → Nat)
    (dbN : Nat) (hh : Bool) (sp : Option Bytes) (nf : Option (Bytes → Bytes)) :
    (MolFileIndex.make file offsets dbN hh sp (.idx (-1)) (.idx (-1)) nf).map
        (fun m => m.smilesColIdx) = .ok none
    ∧ ∀ idx, (MolFileIndex.make file offsets dbN hh sp (.idx (-1)) (.idx (-1)) nf).map
        (fun m => MolFileIndex.getMol m idx) = .ok (.error .attributeError) :=
  ⟨rfl, fun _ => rfl⟩

end MolFile
